import Mathlib

/-!
Verification of the CSV import/export core of the table-editor
application (`src/App.tsx`, `src/components/TableEditor.tsx`).

The JavaScript string primitives used by the source are modelled at the
character-list level:

* `jsTrim` models `String.prototype.trim` (drop whitespace from both
  ends; the whitespace set is modelled by `Char.isWhitespace`);
* `jsStartsWith` / `jsEndsWith` model `startsWith` / `endsWith`;
* `replaceFirst` models `String.prototype.replace` with a *string*
  pattern, which replaces only the first occurrence;
* `escQuotes` models `str.replace(/"/g, '""')`, the global
  regex replace that doubles every double-quote character.

Tables are modelled without their opaque generated `id` field, which
carries no table content.
-/

/-- Characters dropped from both ends by `jsTrim`. -/
def wsChar (c : Char) : Bool := c.isWhitespace

/-- Model of JavaScript `String.prototype.trim` on character lists. -/
def jsTrimData (l : List Char) : List Char :=
  ((l.dropWhile wsChar).reverse.dropWhile wsChar).reverse

/-- Model of JavaScript `String.prototype.trim`. -/
def jsTrim (s : String) : String := String.mk (jsTrimData s.data)

/-- Model of JavaScript `String.prototype.startsWith`. -/
def jsStartsWith (s pat : String) : Bool := pat.data.isPrefixOf s.data

/-- Model of JavaScript `String.prototype.endsWith`. -/
def jsEndsWith (s pat : String) : Bool := pat.data.isSuffixOf s.data

/-- Replace the first occurrence of `pat` (non-empty) by `repl`,
character-list level. -/
def replaceFirstData (pat repl : List Char) : List Char → List Char
  | [] => []
  | c :: cs =>
    if pat.isPrefixOf (c :: cs) then repl ++ (c :: cs).drop pat.length
    else c :: replaceFirstData pat repl cs

/-- Model of JavaScript `String.prototype.replace` with a string
pattern: only the first occurrence is replaced. -/
def replaceFirst (s pat repl : String) : String :=
  String.mk (replaceFirstData pat.data repl.data s.data)

/-- Does `pat` occur as a contiguous sublist? -/
def containsSub (pat : List Char) : List Char → Bool
  | [] => pat.isPrefixOf ([] : List Char)
  | c :: cs => pat.isPrefixOf (c :: cs) || containsSub pat cs

/-- Model of `str.replace(/"/g, '""')`: every `"` is doubled. -/
def escQuotes : List Char → List Char
  | [] => []
  | c :: cs => if c = '\"' then '\"' :: '\"' :: escQuotes cs else c :: escQuotes cs

/-- `escapeCSV` from `src/App.tsx` / `TableEditor.tsx`:
`(str) => `"${str.replace(/"/g, '""')}"``. -/
def escapeCSV (s : String) : String :=
  "\"" ++ String.mk (escQuotes s.data) ++ "\""

/-- Model of `Array.prototype.join(sep)`. -/
def joinSep (sep : String) : List String → String
  | [] => ""
  | [s] => s
  | s :: rest => s ++ sep ++ joinSep sep rest

/-- End-of-input flush of `parseCSVToRows`
(`if (currentCell !== '' || currentRow.length > 0) { ... }`). -/
def flushEnd (cell : List Char) (row : List String) : List (List String) :=
  if cell ≠ [] ∨ row.length > 0 then [row ++ [String.mk cell]] else []

/-- The character scan of `parseCSVToRows` (src/App.tsx lines 133-177).
State: remaining input, `inQuotes` flag, accumulated cell characters,
fields already pushed into the current row.  Returns the rows emitted
from this state on (the JS code pushes them onto a result array). -/
def parseAux : List Char → Bool → List Char → List String → List (List String)
  | [], _, cell, row => flushEnd cell row
  | c :: cs, true, cell, row =>
    if c = '\"' then
      match cs with
      | c2 :: cs2 =>
        -- `"" ` inside quotes unescapes to a literal quote
        if c2 = '\"' then parseAux cs2 true (cell ++ ['\"']) row
        -- a lone quote closes quote mode
        else parseAux (c2 :: cs2) false cell row
      | [] => flushEnd cell row  -- quote closes, then end of input
    else parseAux cs true (cell ++ [c]) row
  | c :: cs, false, cell, row =>
    if c = '\"' then parseAux cs true cell row
    else if c = ',' then parseAux cs false [] (row ++ [String.mk cell])
    else if c = '\n' then (row ++ [String.mk cell]) :: parseAux cs false [] []
    else if c = '\r' then
      match cs with
      | c2 :: cs2 =>
        -- `\r\n` ends the row, the `\r` is consumed without emission
        if c2 = '\n' then (row ++ [String.mk cell]) :: parseAux cs2 false [] []
        -- a lone `\r` is skipped (`else if (char !== '\r')` fails)
        else parseAux (c2 :: cs2) false cell row
      | [] => flushEnd cell row
    else parseAux cs false (cell ++ [c]) row

/-- `parseCSVToRows` from `src/App.tsx`. -/
def parseCSVToRows (s : String) : List (List String) :=
  parseAux s.data false [] []

-- sanity checks (kept as theorems so that the definitions stay executable)
example : parseCSVToRows "a,b\nc,d" = [["a", "b"], ["c", "d"]] := by decide
example : parseCSVToRows "\"a,\"\"b\nc\"\"\"\n" = [["a,\"b\nc\""]] := by decide
example : parseCSVToRows "a\rb" = [["ab"]] := by decide
example : parseCSVToRows "a\r\nb" = [["a"], ["b"]] := by decide
example : parseCSVToRows "" = [] := by decide
example : parseCSVToRows "a,b\n" = [["a", "b"]] := by decide
example : parseCSVToRows "a," = [["a", ""]] := by decide

/-! ## Data model (`src/types.ts`), without the opaque `id` field -/

/-- `TableData` from `src/types.ts` (the generated `id` is omitted:
it is an opaque unique key with no table content). -/
structure TableData where
  title : String
  columns : List String
  rows : List (List String)
  deriving DecidableEq, Repr

/-! ## Table assembler (`handleFileChange`, src/App.tsx lines 179-246) -/

/-- The multi-table marker row text starts with this string
(`'>>> 表格：'`). -/
def markStart : String := ">>> 表格："

/-- The multi-table marker row text ends with this string (`'<<<'`). -/
def markEndStr : String := "<<<"

/-- `row.some(cell => cell.trim() !== "")`: the row is not entirely
blank. -/
def rowHasContent (row : List String) : Bool :=
  row.any (fun c => jsTrim c != "")

/-- `(row[0] || '')`: first field of a row, the empty string when the
row has no fields. -/
def firstField (row : List String) : String := row.headD ""

/-- `isMultiTableFile` (src/App.tsx lines 186-188):
some row's first field, trimmed, starts with the marker. -/
def isMultiTableFile (rows : List (List String)) : Bool :=
  rows.any (fun row => jsStartsWith (jsTrim (firstField row)) markStart)

/-- Single-table assembly (src/App.tsx lines 190-201). -/
def assembleSingle (fileName : String) (allParsedRows : List (List String)) :
    TableData :=
  let headers := (allParsedRows.headD []).map jsTrim
  let dataRows := (allParsedRows.drop 1).filter rowHasContent
  { title := fileName
    columns := headers
    rows := if dataRows.length > 0 then dataRows
            else [List.replicate headers.length ""] }

/-- Marker-row test of the multi-table loop (src/App.tsx line 207):
`firstCellContent.startsWith('>>> 表格：') && firstCellContent.endsWith('<<<')`. -/
def isMarkerRow (row : List String) : Bool :=
  jsStartsWith (jsTrim (firstField row)) markStart &&
  jsEndsWith (jsTrim (firstField row)) markEndStr

/-- Title extraction of a marker row (src/App.tsx line 209):
`firstCellContent.replace('>>> 表格：', '').replace('<<<', '').trim()`.
JavaScript `replace` with a string pattern removes only the *first*
occurrence of each pattern. -/
def markerTitle (row : List String) : String :=
  jsTrim (replaceFirst (replaceFirst (jsTrim (firstField row)) markStart "")
    markEndStr "")

/-- One non-marker row while a table is active (src/App.tsx lines
217-228): blank rows are skipped, the first non-blank row becomes the
(trimmed) headers, later non-blank rows are appended verbatim as data
(`row.map(c => c.toString())` is the identity on strings). -/
def bodyStep (t : TableData) (row : List String) : TableData :=
  if rowHasContent row then
    if t.columns.length = 0 then { t with columns := row.map jsTrim }
    else { t with rows := t.rows ++ [row] }
  else t

/-- State of the multi-table loop: completed tables in order, plus the
active table (`currentTable`), kept separate because the JS code
mutates the array element in place. -/
structure MTState where
  tables : List TableData
  current : Option TableData

/-- One iteration of `allParsedRows.forEach` (src/App.tsx lines 204-229). -/
def mtStep (st : MTState) (row : List String) : MTState :=
  if isMarkerRow row then
    { tables := st.tables ++ st.current.toList
      current := some { title := markerTitle row, columns := [], rows := [] } }
  else
    match st.current with
    | none => st
    | some t => { st with current := some (bodyStep t row) }

/-- Flush the active table at the end of the loop. -/
def finishMT (st : MTState) : List TableData := st.tables ++ st.current.toList

/-- Multi-table assembly (src/App.tsx lines 202-230). -/
def assembleMulti (rows : List (List String)) : List TableData :=
  finishMT (rows.foldl mtStep { tables := [], current := none })

/-- Final cleanup (src/App.tsx lines 232-237): a table with zero data
rows gets one synthetic row of empty strings sized to its column
count. -/
def finalCleanup (t : TableData) : TableData :=
  if t.rows.length = 0 then
    { t with rows := [List.replicate t.columns.length ""] }
  else t

/-- The import pipeline of `handleFileChange` (src/App.tsx lines
179-246): parse, detect mode, assemble, clean up.  An empty parse
result yields no tables (the caller then performs no update). -/
def importCSV (fileName : String) (text : String) : List TableData :=
  let allParsedRows := parseCSVToRows text
  if allParsedRows.length = 0 then []
  else
    let detected :=
      if !(isMultiTableFile allParsedRows) then
        [assembleSingle fileName allParsedRows]
      else assembleMulti allParsedRows
    detected.map finalCleanup

/-! ## Serializers (`exportAllTablesOnPage`, src/App.tsx lines 253-262;
`downloadCSV`, src/components/TableEditor.tsx lines 176-188).
The modelled value is the `csvContent` string; the UTF-8 BOM prepended
at `Blob` construction is outside it. -/

/-- A comma-joined row of unconditionally quoted fields:
`row.map(escapeCSV).join(',')`. -/
def exportRowStr (r : List String) : String := joinSep "," (r.map escapeCSV)

/-- The sentinel title text `` `>>> 表格：${table.title} <<<` ``. -/
def sentinelFor (title : String) : String := ">>> 表格：" ++ title ++ " <<<"

/-- One table block of the multi-table export (src/App.tsx lines
256-261): title row, header row, data rows, newline-joined. -/
def tableBlock (t : TableData) : String :=
  joinSep "," ([sentinelFor t.title].map escapeCSV) ++ "\n" ++
  exportRowStr t.columns ++ "\n" ++
  joinSep "\n" (t.rows.map exportRowStr)

/-- `csvContent` of `exportAllTablesOnPage`: blocks joined with
`'\n\n\n'` (two blank lines between consecutive blocks). -/
def exportAllContent (tables : List TableData) : String :=
  joinSep "\n\n\n" (tables.map tableBlock)

/-- `csvContent` of `downloadCSV` (single-table export): header row then
data rows, newline-joined. -/
def downloadCSVContent (t : TableData) : String :=
  joinSep "\n" (exportRowStr t.columns :: t.rows.map exportRowStr)

-- sanity checks
example : escapeCSV "a\"b" = "\"a\"\"b\"" := by decide
example :
    importCSV "f" "\"h1\",\"h2\"\n\"1\",\"2\"" =
      [{ title := "f", columns := ["h1", "h2"], rows := [["1", "2"]] }] := by
  decide
example :
    importCSV "f" "\"h1\",\"h2\"" =
      [{ title := "f", columns := ["h1", "h2"], rows := [["", ""]] }] := by
  decide
example :
    importCSV "fb" (exportAllContent
        [{ title := "A", columns := ["h"], rows := [["1"]] }]) =
      [{ title := "A", columns := ["h"], rows := [["1"]] }] := by
  decide

/-! ## Table editing operations (`TableEditor`,
src/components/TableEditor.tsx lines 133-174).  Each operation builds
the replacement table value passed to `onUpdate`; the indices supplied
by the UI are always in range. -/

/-- `arr.filter((_, i) => i !== index)`, indices counted from `start`. -/
def filterOutIdxFrom {α : Type} (index : Nat) : Nat → List α → List α
  | _, [] => []
  | start, x :: xs =>
    if start = index then filterOutIdxFrom index (start + 1) xs
    else x :: filterOutIdxFrom index (start + 1) xs

/-- `arr.filter((_, i) => i !== index)`. -/
def filterOutIdx {α : Type} (index : Nat) (l : List α) : List α :=
  filterOutIdxFrom index 0 l

/-- Replace the element at an index (in-range assignment
`arr[i] = ...`); out of range, the list is unchanged. -/
def listModify {α : Type} (f : α → α) : Nat → List α → List α
  | _, [] => []
  | 0, x :: xs => f x :: xs
  | n + 1, x :: xs => x :: listModify f n xs

/-- `addRow` (line 133): append one row of empty strings sized to the
column count. -/
def addRow (t : TableData) : TableData :=
  { t with rows := t.rows ++ [List.replicate t.columns.length ""] }

/-- `addColumn` (line 138): append a default header and one empty cell
to every row. -/
def addColumn (t : TableData) : TableData :=
  { t with columns := t.columns ++ ["新欄位"]
           rows := t.rows.map (fun row => row ++ [""]) }

/-- `removeRow` (line 147): on a single-row table the row is replaced by
one all-empty row, otherwise the indexed row is dropped. -/
def removeRow (t : TableData) (index : Nat) : TableData :=
  { t with rows :=
      if t.rows.length ≤ 1 then [List.replicate t.columns.length ""]
      else filterOutIdx index t.rows }

/-- `removeColumn` (line 153): refuses to drop the last column,
otherwise drops the indexed header and the indexed cell of every row. -/
def removeColumn (t : TableData) (index : Nat) : TableData :=
  if t.columns.length ≤ 1 then t
  else
    { t with columns := filterOutIdx index t.columns
             rows := t.rows.map (filterOutIdx index) }

/-- `updateCell` (line 162): overwrite one cell. -/
def updateCell (t : TableData) (rowIndex colIndex : Nat) (value : String) :
    TableData :=
  { t with rows :=
      listModify (listModify (fun _ => value) colIndex) rowIndex t.rows }

/-- `updateHeader` (line 169): overwrite one header. -/
def updateHeader (t : TableData) (colIndex : Nat) (value : String) :
    TableData :=
  { t with columns := listModify (fun _ => value) colIndex t.columns }

/-- The structural invariant of an editable table: at least one row, at
least one column, and every row aligned with the header list. -/
def rectInv (t : TableData) : Prop :=
  t.rows ≠ [] ∧ t.columns ≠ [] ∧ ∀ r ∈ t.rows, r.length = t.columns.length

instance (t : TableData) : Decidable (rectInv t) := by
  unfold rectInv; infer_instance

/-! ## Specification-side definitions (from the spec's words), used to
state refinement-style claims against the source-derived definitions
above. -/

/-- Modelled from the spec: "every field is wrapped in double quotes
unconditionally; literal double-quote characters inside a field are
doubled". -/
def specEscape (s : String) : String :=
  String.mk ('\"' ::
    (s.data.flatMap (fun c => if c = '\"' then ['\"', '\"'] else [c])) ++ ['\"'])

/-- Modelled from the spec: single-table assembly.  "Row 0 (trimmed per
field) is the column header list; every subsequent row is a data row,
but rows that are entirely blank are dropped.  If zero data rows
survive, synthesize one row of empty strings sized to the header
count.  Title = fallback title." -/
def specAssembleSingle (fileName : String) (allParsedRows : List (List String)) :
    TableData :=
  let headers := (allParsedRows.headD []).map jsTrim
  match (allParsedRows.drop 1).filter rowHasContent with
  | [] => { title := fileName, columns := headers
            rows := [List.replicate headers.length ""] }
  | d :: ds => { title := fileName, columns := headers, rows := d :: ds }

/-- Modelled from the spec (multi-table assembly, one segment): the
rows following one marker row, up to the next marker.  Blank rows are
dropped; the first surviving row is the (trimmed) header list, the rest
are verbatim data rows; a segment with zero data rows gets one
synthetic row of empty strings sized to its column count. -/
def specSegment (title : String) (body : List (List String)) : TableData :=
  match body.filter rowHasContent with
  | [] => { title := title, columns := [], rows := [[]] }
  | hd :: tl =>
    { title := title
      columns := hd.map jsTrim
      rows := if tl = [] then [List.replicate hd.length ""] else tl }

theorem dropWhile_length_le {α : Type} (p : α → Bool) (l : List α) :
    (l.dropWhile p).length ≤ l.length := by
  induction l with
  | nil => simp [List.dropWhile]
  | cons x xs ih =>
    by_cases h : p x
    · simp only [List.dropWhile, h, List.length_cons]
      omega
    · simp [List.dropWhile, h]

/-- Modelled from the spec: multi-table assembly as a segmentation at
marker rows.  Rows before the first marker are ignored; each marker
row opens a segment extending to the next marker. -/
def specAssembleMulti : List (List String) → List TableData
  | [] => []
  | row :: rest =>
    if isMarkerRow row then
      specSegment (markerTitle row) (rest.takeWhile (fun r => !(isMarkerRow r))) ::
        specAssembleMulti (rest.dropWhile (fun r => !(isMarkerRow r)))
    else specAssembleMulti rest
termination_by rows => rows.length
decreasing_by
  · exact Nat.lt_succ_of_le (dropWhile_length_le _ _)
  · simp

-- sanity checks
example :
    (assembleMulti
        [[">>> 表格：A <<<"], ["h1", "h2"], ["1", "2"], ["", ""],
         [">>> 表格：B <<<"], ["x"], ["9"]]).map finalCleanup =
      [{ title := "A", columns := ["h1", "h2"], rows := [["1", "2"]] },
       { title := "B", columns := ["x"], rows := [["9"]] }] := by
  decide

-- title containing '<<<': the first occurrence of '<<<' is removed,
-- not the suffix
example :
    (assembleMulti [[">>> 表格：<<<A<<<"], ["h"], ["1"]]).map finalCleanup =
      [{ title := "A<<<", columns := ["h"], rows := [["1"]] }] := by
  decide

-- headers are trimmed on import, so they do not round-trip verbatim
example :
    importCSV "fb" (exportAllContent
        [{ title := "A", columns := [" h"], rows := [["1"]] }]) =
      [{ title := "A", columns := ["h"], rows := [["1"]] }] := by
  decide

/-! ## Parser transition lemmas -/

theorem parseAux_quote_pair (rest cell : List Char) (row : List String) :
    parseAux ('\"' :: '\"' :: rest) true cell row =
      parseAux rest true (cell ++ ['\"']) row := by
  rw [parseAux.eq_def]; simp

theorem parseAux_quote_other (c : Char) (rest cell : List Char)
    (row : List String) (h : c ≠ '\"') :
    parseAux (c :: rest) true cell row = parseAux rest true (cell ++ [c]) row := by
  rw [parseAux.eq_def]; simp [h]

theorem parseAux_quote_close (rest cell : List Char) (row : List String)
    (h : rest.head? ≠ some '\"') :
    parseAux ('\"' :: rest) true cell row = parseAux rest false cell row := by
  cases rest with
  | nil => simp [parseAux, flushEnd]
  | cons c2 cs2 =>
    have hc : c2 ≠ '\"' := by
      intro hh
      exact h (by simp [hh])
    simp [parseAux, hc]

theorem parseAux_open_quote (rest cell : List Char) (row : List String) :
    parseAux ('\"' :: rest) false cell row = parseAux rest true cell row := by
  rw [parseAux.eq_def]; simp

theorem parseAux_comma (rest cell : List Char) (row : List String) :
    parseAux (',' :: rest) false cell row =
      parseAux rest false [] (row ++ [String.mk cell]) := by
  rw [parseAux.eq_def]; simp

theorem parseAux_newline (rest cell : List Char) (row : List String) :
    parseAux ('\n' :: rest) false cell row =
      (row ++ [String.mk cell]) :: parseAux rest false [] [] := by
  rw [parseAux.eq_def]; simp

theorem parseAux_crlf (rest cell : List Char) (row : List String) :
    parseAux ('\r' :: '\n' :: rest) false cell row =
      (row ++ [String.mk cell]) :: parseAux rest false [] [] := by
  rw [parseAux.eq_def]; simp

theorem parseAux_lone_cr (rest cell : List Char) (row : List String)
    (h : rest.head? ≠ some '\n') :
    parseAux ('\r' :: rest) false cell row = parseAux rest false cell row := by
  cases rest with
  | nil => simp [parseAux, flushEnd]
  | cons c2 cs2 =>
    have hc : c2 ≠ '\n' := by
      intro hh
      exact h (by simp [hh])
    simp [parseAux, hc]

theorem parseAux_plain (c : Char) (rest cell : List Char) (row : List String)
    (h1 : c ≠ '\"') (h2 : c ≠ ',') (h3 : c ≠ '\n') (h4 : c ≠ '\r') :
    parseAux (c :: rest) false cell row =
      parseAux rest false (cell ++ [c]) row := by
  rw [parseAux.eq_def]; simp [h1, h2, h3, h4]

theorem parseAux_end (q : Bool) (cell : List Char) (row : List String) :
    parseAux [] q cell row =
      if cell ≠ [] ∨ row.length > 0 then [row ++ [String.mk cell]] else [] := by
  rw [parseAux.eq_def]; simp [flushEnd]

/-! ## String-level bridge lemmas -/

theorem strData_append (s t : String) : (s ++ t).data = s.data ++ t.data := by
  cases s; cases t; rfl

theorem strMk_data (s : String) : String.mk s.data = s := rfl

theorem escapeCSV_data (s : String) :
    (escapeCSV s).data = '\"' :: (escQuotes s.data ++ ['\"']) := by
  simp [escapeCSV, strData_append]

theorem escQuotes_quote (cs : List Char) :
    escQuotes ('\"' :: cs) = '\"' :: '\"' :: escQuotes cs := by
  simp [escQuotes]

theorem escQuotes_other (c : Char) (cs : List Char) (h : c ≠ '\"') :
    escQuotes (c :: cs) = c :: escQuotes cs := by
  simp [escQuotes, h]

/-! ## Parsing a serialized quoted field, row, and line sequence -/

theorem parseAux_escQuotes (s : List Char) :
    ∀ (rest cell : List Char) (row : List String), rest.head? ≠ some '\"' →
      parseAux (escQuotes s ++ '\"' :: rest) true cell row =
        parseAux rest false (cell ++ s) row := by
  induction s with
  | nil =>
    intro rest cell row h
    simpa using parseAux_quote_close rest cell row h
  | cons c cs ih =>
    intro rest cell row h
    by_cases hc : c = '\"'
    · subst hc
      simp only [escQuotes_quote, List.cons_append]
      rw [parseAux_quote_pair, ih rest (cell ++ ['\"']) row h]
      simp
    · simp only [escQuotes_other c cs hc, List.cons_append]
      rw [parseAux_quote_other c _ _ _ hc, ih rest (cell ++ [c]) row h]
      simp

theorem parseAux_quoted_field (f : String) (rest : List Char)
    (cell : List Char) (row : List String) (h : rest.head? ≠ some '\"') :
    parseAux ((escapeCSV f).data ++ rest) false cell row =
      parseAux rest false (cell ++ f.data) row := by
  rw [escapeCSV_data]
  have : ('\"' :: (escQuotes f.data ++ ['\"'])) ++ rest =
      '\"' :: (escQuotes f.data ++ '\"' :: rest) := by simp
  rw [this, parseAux_open_quote, parseAux_escQuotes f.data rest cell row h]

theorem exportRowStr_single (f : String) : exportRowStr [f] = escapeCSV f := by
  simp [exportRowStr, joinSep]

theorem exportRowStr_cons (f g : String) (fs : List String) :
    exportRowStr (f :: g :: fs) = escapeCSV f ++ "," ++ exportRowStr (g :: fs) := by
  simp [exportRowStr, joinSep]

theorem parseAux_row_line (fs : List String) (hne : fs ≠ []) :
    ∀ (rest : List Char) (row : List String),
      parseAux ((exportRowStr fs).data ++ '\n' :: rest) false [] row =
        (row ++ fs) :: parseAux rest false [] [] := by
  induction fs with
  | nil => exact absurd rfl hne
  | cons f fs ih =>
    intro rest row
    cases fs with
    | nil =>
      rw [exportRowStr_single]
      rw [parseAux_quoted_field f ('\n' :: rest) [] row (by simp)]
      simp [parseAux_newline, strMk_data]
    | cons g gs =>
      rw [exportRowStr_cons]
      have hd : ((escapeCSV f ++ ",") ++ exportRowStr (g :: gs)).data ++
          '\n' :: rest =
          (escapeCSV f).data ++ ',' :: ((exportRowStr (g :: gs)).data ++
            '\n' :: rest) := by
        simp [strData_append]
      rw [hd, parseAux_quoted_field f _ [] row (by simp)]
      simp only [List.nil_append]
      rw [parseAux_comma, strMk_data, ih (by simp) rest (row ++ [f])]
      simp

theorem parseAux_row_last (fs : List String) (hne : fs ≠ []) :
    ∀ (row : List String), ¬(row = [] ∧ fs = [""]) →
      parseAux ((exportRowStr fs).data) false [] row = [row ++ fs] := by
  induction fs with
  | nil => exact absurd rfl hne
  | cons f fs ih =>
    intro row hrow
    cases fs with
    | nil =>
      rw [exportRowStr_single]
      have : (escapeCSV f).data = (escapeCSV f).data ++ [] := by simp
      rw [this, parseAux_quoted_field f [] [] row (by simp)]
      rw [parseAux_end, strMk_data]
      simp only [List.nil_append]
      have : f.data ≠ [] ∨ row.length > 0 := by
        rcases Decidable.em (row = []) with hr | hr
        · subst hr
          left
          intro hf
          exact hrow ⟨rfl, by
            have : f = "" := by
              cases f
              simp_all
            simp [this]⟩
        · right
          exact List.length_pos.mpr hr
      rw [if_pos this]
    | cons g gs =>
      rw [exportRowStr_cons]
      have hd : ((escapeCSV f ++ ",") ++ exportRowStr (g :: gs)).data =
          (escapeCSV f).data ++ ',' :: (exportRowStr (g :: gs)).data := by
        simp [strData_append]
      rw [hd, parseAux_quoted_field f _ [] row (by simp)]
      simp only [List.nil_append]
      rw [parseAux_comma, strMk_data, ih (by simp) (row ++ [f]) (by simp)]
      simp

theorem parseAux_all_lines (rs : List (List String)) (h1 : rs ≠ [])
    (h2 : ∀ r ∈ rs, r ≠ []) (h3 : rs.getLast? ≠ some [""]) :
    parseAux ((joinSep "\n" (rs.map exportRowStr)).data) false [] [] = rs := by
  induction rs with
  | nil => exact absurd rfl h1
  | cons r rs ih =>
    cases rs with
    | nil =>
      simp only [List.map_cons, List.map_nil, joinSep]
      have hr : ¬(([] : List String) = [] ∧ r = [""]) := by
        intro hc
        exact h3 (by simp [hc.2])
      simpa using parseAux_row_last r (h2 r (by simp)) [] hr
    | cons r2 rs2 =>
      have hd : (joinSep "\n" ((r :: r2 :: rs2).map exportRowStr)).data =
          (exportRowStr r).data ++ '\n' ::
            (joinSep "\n" ((r2 :: rs2).map exportRowStr)).data := by
        simp only [List.map_cons, joinSep, strData_append]
        simp
      rw [hd, parseAux_row_line r (h2 r (by simp)) _ []]
      rw [ih (by simp) (fun x hx => h2 x (by simp [hx])) (by simpa using h3)]
      simp

/-- Parsing the multi-table export of one table recovers the sentinel
row, the header row, and the data rows verbatim. -/
theorem parse_export_single (t : TableData) (hcols : t.columns ≠ [])
    (hrows : t.rows ≠ []) (hrowsne : ∀ r ∈ t.rows, r ≠ [])
    (hlast : t.rows.getLast? ≠ some [""]) :
    parseCSVToRows (exportAllContent [t]) =
      [sentinelFor t.title] :: t.columns :: t.rows := by
  obtain ⟨r0, rs0, hr⟩ : ∃ a l, t.rows = a :: l := by
    cases hrw : t.rows with
    | nil => exact absurd hrw hrows
    | cons a l => exact ⟨a, l, rfl⟩
  have h1 : exportAllContent [t] = tableBlock t := by
    simp [exportAllContent, joinSep]
  have h2 : (tableBlock t).data =
      (joinSep "\n" (([sentinelFor t.title] :: t.columns :: t.rows).map
        exportRowStr)).data := by
    rw [hr]
    simp only [tableBlock, hr, List.map_cons, joinSep, strData_append,
      exportRowStr_single]
    simp [strData_append]
  unfold parseCSVToRows
  rw [h1, h2]
  apply parseAux_all_lines
  · simp
  · intro r hmem
    simp only [List.mem_cons] at hmem
    rcases hmem with h | h | h
    · simp [h]
    · rw [h]; exact hcols
    · exact hrowsne r h
  · rw [hr] at hlast ⊢
    simpa using hlast

/-! ## Assembler fold lemmas -/

theorem rowHasContent_ne_nil (row : List String) (h : rowHasContent row = true) :
    row ≠ [] := by
  intro hc
  rw [hc] at h
  simp [rowHasContent] at h

theorem mtStep_marker (st : MTState) (row : List String)
    (h : isMarkerRow row = true) :
    mtStep st row =
      { tables := st.tables ++ st.current.toList
        current := some { title := markerTitle row, columns := [], rows := [] } } := by
  simp [mtStep, h]

theorem mtStep_active (st : MTState) (t : TableData) (row : List String)
    (hcur : st.current = some t) (h : isMarkerRow row = false) :
    mtStep st row = { st with current := some (bodyStep t row) } := by
  simp [mtStep, h, hcur]

theorem mtStep_idle (st : MTState) (row : List String)
    (hcur : st.current = none) (h : isMarkerRow row = false) :
    mtStep st row = st := by
  simp [mtStep, h, hcur]

theorem foldl_bodyStep_cols (body : List (List String)) :
    ∀ (t : TableData), t.columns ≠ [] →
      body.foldl bodyStep t =
        { t with rows := t.rows ++ body.filter rowHasContent } := by
  induction body with
  | nil =>
    intro t h
    simp
  | cons r rs ih =>
    intro t h
    by_cases hr : rowHasContent r
    · have hlen : ¬ t.columns.length = 0 := by
        simpa [List.length_eq_zero] using h
      simp only [List.foldl_cons, bodyStep, hr, if_true, hlen, if_false,
        List.filter_cons_of_pos hr]
      rw [ih _ (by simpa using h)]
      simp
    · simp only [List.foldl_cons, bodyStep, hr, Bool.false_eq_true, if_false,
        List.filter_cons_of_neg (by simpa using hr)]
      exact ih t h

theorem foldl_bodyStep_empty (body : List (List String)) (title : String) :
    body.foldl bodyStep { title := title, columns := [], rows := [] } =
      (match body.filter rowHasContent with
       | [] => { title := title, columns := [], rows := [] }
       | hd :: tl => { title := title, columns := hd.map jsTrim, rows := tl }) := by
  induction body with
  | nil => simp
  | cons r rs ih =>
    by_cases hr : rowHasContent r
    · have hne : r.map jsTrim ≠ [] := by
        simpa using rowHasContent_ne_nil r hr
      simp only [List.foldl_cons, bodyStep, hr, if_true, List.length_nil,
        if_pos rfl, List.filter_cons_of_pos hr]
      rw [foldl_bodyStep_cols rs _ (by simpa using hne)]
      simp
    · simp only [List.foldl_cons, bodyStep, hr, Bool.false_eq_true, if_false,
        List.filter_cons_of_neg (by simpa using hr)]
      exact ih

theorem cleanup_bodyFold (title : String) (body : List (List String)) :
    finalCleanup
        (body.foldl bodyStep { title := title, columns := [], rows := [] }) =
      specSegment title body := by
  rw [foldl_bodyStep_empty]
  cases hf : body.filter rowHasContent with
  | nil => simp [finalCleanup, specSegment, hf]
  | cons hd tl =>
    cases tl with
    | nil => simp [finalCleanup, specSegment, hf]
    | cons x xs => simp [finalCleanup, specSegment, hf]

theorem specAssembleMulti_nil : specAssembleMulti [] = [] := by
  rw [specAssembleMulti]

theorem specAssembleMulti_marker (row : List String) (rest : List (List String))
    (h : isMarkerRow row = true) :
    specAssembleMulti (row :: rest) =
      specSegment (markerTitle row)
          (rest.takeWhile (fun r => !(isMarkerRow r))) ::
        specAssembleMulti (rest.dropWhile (fun r => !(isMarkerRow r))) := by
  rw [specAssembleMulti]
  simp [h]

theorem specAssembleMulti_skip (row : List String) (rest : List (List String))
    (h : isMarkerRow row = false) :
    specAssembleMulti (row :: rest) = specAssembleMulti rest := by
  rw [specAssembleMulti]
  simp [h]

theorem mtStep_fold_active (rows : List (List String)) :
    ∀ (tabs : List TableData) (t : TableData),
      (finishMT (rows.foldl mtStep
          { tables := tabs, current := some t })).map finalCleanup =
        tabs.map finalCleanup ++
          [finalCleanup
            ((rows.takeWhile (fun r => !(isMarkerRow r))).foldl bodyStep t)] ++
          specAssembleMulti (rows.dropWhile (fun r => !(isMarkerRow r))) := by
  induction rows with
  | nil =>
    intro tabs t
    simp [finishMT, specAssembleMulti_nil, Option.toList]
  | cons r rs ih =>
    intro tabs t
    by_cases hr : isMarkerRow r
    · simp only [List.foldl_cons,
        mtStep_marker _ r hr, Option.toList,
        List.takeWhile_cons, List.dropWhile_cons, hr, Bool.not_true,
        Bool.false_eq_true, if_false]
      rw [ih (tabs ++ [t]) _]
      rw [specAssembleMulti_marker r rs hr, cleanup_bodyFold]
      simp [List.foldl_nil]
    · simp only [List.foldl_cons,
        mtStep_active { tables := tabs, current := some t } t r rfl
          (by simpa using hr),
        List.takeWhile_cons, List.dropWhile_cons, hr, Bool.not_false,
        if_true]
      rw [ih tabs (bodyStep t r)]

theorem mtStep_fold_start (rows : List (List String)) :
    ∀ (tabs : List TableData),
      (finishMT (rows.foldl mtStep
          { tables := tabs, current := none })).map finalCleanup =
        tabs.map finalCleanup ++ specAssembleMulti rows := by
  induction rows with
  | nil =>
    intro tabs
    simp [finishMT, specAssembleMulti_nil, Option.toList]
  | cons r rs ih =>
    intro tabs
    by_cases hr : isMarkerRow r
    · simp only [List.foldl_cons, mtStep_marker _ r hr, Option.toList,
        List.append_nil]
      rw [mtStep_fold_active rs tabs _]
      rw [specAssembleMulti_marker r rs hr, cleanup_bodyFold]
      simp
    · simp only [List.foldl_cons,
        mtStep_idle { tables := tabs, current := none } r rfl
          (by simpa using hr)]
      rw [ih tabs, specAssembleMulti_skip r rs (by simpa using hr)]

/-- The multi-table assembly loop plus final cleanup is the
segmentation-at-markers description of the spec. -/
theorem assembleMulti_eq_spec (rows : List (List String)) :
    (assembleMulti rows).map finalCleanup = specAssembleMulti rows := by
  simpa [assembleMulti] using mtStep_fold_start rows []

theorem foldl_mtStep_body (body : List (List String)) :
    ∀ (tabs : List TableData) (t : TableData),
      (∀ r ∈ body, isMarkerRow r = false) →
      body.foldl mtStep { tables := tabs, current := some t } =
        { tables := tabs, current := some (body.foldl bodyStep t) } := by
  induction body with
  | nil =>
    intro tabs t _
    simp
  | cons r rs ih =>
    intro tabs t h
    simp only [List.foldl_cons]
    rw [mtStep_active { tables := tabs, current := some t } t r rfl
      (h r (by simp))]
    exact ih tabs (bodyStep t r) (fun x hx => h x (by simp [hx]))

/-! ## Trim and replace lemmas for sentinel round-tripping -/

theorem dropWhile_eq_self_of_length {α : Type} (p : α → Bool) (l : List α)
    (h : (l.dropWhile p).length = l.length) : l.dropWhile p = l := by
  cases l with
  | nil => simp
  | cons x xs =>
    by_cases hp : p x
    · exfalso
      have h1 := dropWhile_length_le p xs
      rw [List.dropWhile_cons, if_pos hp] at h
      simp at h
      omega
    · rw [List.dropWhile_cons, if_neg hp]

theorem jsTrimData_inv (l : List Char) (h : jsTrimData l = l) :
    l.dropWhile wsChar = l ∧ l.reverse.dropWhile wsChar = l.reverse := by
  have hlen : (jsTrimData l).length = l.length := by rw [h]
  have e1 := dropWhile_length_le wsChar l
  have e2 := dropWhile_length_le wsChar (l.dropWhile wsChar).reverse
  have hlen2 : (l.dropWhile wsChar).length = l.length := by
    simp only [jsTrimData, List.length_reverse] at hlen
    simp only [List.length_reverse] at e2
    omega
  have hleft : l.dropWhile wsChar = l :=
    dropWhile_eq_self_of_length wsChar l hlen2
  refine ⟨hleft, ?_⟩
  have h2 : (l.reverse.dropWhile wsChar).reverse = l := by
    have := h
    simp only [jsTrimData, hleft] at this
    exact this
  have := congrArg List.reverse h2
  simpa using this

theorem jsTrimData_append_space (l : List Char) (h : jsTrimData l = l) :
    jsTrimData (l ++ [' ']) = l := by
  cases l with
  | nil => decide
  | cons c cs =>
    obtain ⟨hleft, hright⟩ := jsTrimData_inv (c :: cs) h
    have hc : wsChar c = false := by
      by_cases hw : wsChar c
      · exfalso
        rw [List.dropWhile_cons, if_pos hw] at hleft
        have := dropWhile_length_le wsChar cs
        have := congrArg List.length hleft
        simp at this
        omega
      · simpa using hw
    have step1 : ((c :: cs) ++ [' ']).dropWhile wsChar = (c :: cs) ++ [' '] := by
      rw [List.cons_append, List.dropWhile_cons, if_neg (by simp [hc])]
    have step2 : ((c :: cs) ++ [' ']).reverse = ' ' :: (c :: cs).reverse := by
      simp
    unfold jsTrimData
    rw [step1, step2, List.dropWhile_cons, if_pos (by simp [wsChar]), hright]
    simp

theorem jsTrimData_no_ws_ends (l : List Char)
    (hh : ∀ c, l.head? = some c → wsChar c = false)
    (hl : ∀ c, l.getLast? = some c → wsChar c = false) :
    jsTrimData l = l := by
  cases hrl : l with
  | nil => rfl
  | cons a as =>
    have ha : wsChar a = false := hh a (by rw [hrl]; rfl)
    have step1 : (a :: as).dropWhile wsChar = a :: as := by
      rw [List.dropWhile_cons, if_neg (by simp [ha])]
    cases hrev : (a :: as).reverse with
    | nil => exact absurd (congrArg List.length hrev) (by simp)
    | cons b rest =>
      have hb : wsChar b = false := by
        apply hl b
        rw [hrl, ← List.head?_reverse, hrev]
        rfl
      unfold jsTrimData
      rw [step1, hrev, List.dropWhile_cons, if_neg (by simp [hb]), ← hrev]
      simp

theorem isPrefixOf_append_self (p rest : List Char) :
    p.isPrefixOf (p ++ rest) = true := by
  induction p with
  | nil => simp [List.isPrefixOf]
  | cons a as ih => simp [List.isPrefixOf, ih]

theorem sentinelFor_data (title : String) :
    (sentinelFor title).data =
      markStart.data ++ title.data ++ [' ', '<', '<', '<'] := by
  show (markStart ++ title ++ " <<<").data = _
  rw [strData_append, strData_append]

theorem jsTrim_sentinel (title : String) :
    jsTrim (sentinelFor title) = sentinelFor title := by
  have hd : jsTrimData (sentinelFor title).data = (sentinelFor title).data := by
    apply jsTrimData_no_ws_ends
    · intro c hc
      rw [sentinelFor_data] at hc
      have hh : (markStart.data ++ title.data ++ [' ', '<', '<', '<']).head? =
          some '>' := by rfl
      rw [hh] at hc
      have hcc : c = '>' := (Option.some_inj.mp hc).symm
      simp [hcc, wsChar]
    · intro c hc
      rw [sentinelFor_data] at hc
      have harr : markStart.data ++ title.data ++ [' ', '<', '<', '<'] =
          (markStart.data ++ title.data ++ [' ', '<', '<']) ++ ['<'] := by
        simp
      rw [harr, List.getLast?_concat] at hc
      have hcc : c = '<' := (Option.some_inj.mp hc).symm
      simp [hcc, wsChar]
  show String.mk (jsTrimData (sentinelFor title).data) = sentinelFor title
  rw [hd]

theorem jsStartsWith_sentinel (title : String) :
    jsStartsWith (sentinelFor title) markStart = true := by
  unfold jsStartsWith
  rw [sentinelFor_data, List.append_assoc]
  exact isPrefixOf_append_self _ _

theorem jsEndsWith_sentinel (title : String) :
    jsEndsWith (sentinelFor title) markEndStr = true := by
  unfold jsEndsWith
  rw [sentinelFor_data]
  show List.isSuffixOf _ _ = true
  unfold List.isSuffixOf
  rw [List.reverse_append]
  show ['<', '<', '<'].isPrefixOf
    (['<', '<', '<', ' '] ++ (markStart.data ++ title.data).reverse) = true
  simp [List.isPrefixOf]

theorem isMarkerRow_sentinel (title : String) :
    isMarkerRow [sentinelFor title] = true := by
  simp [isMarkerRow, firstField, jsTrim_sentinel, jsStartsWith_sentinel,
    jsEndsWith_sentinel]

theorem not_marker_of_not_start (row : List String)
    (h : jsStartsWith (jsTrim (firstField row)) markStart = false) :
    isMarkerRow row = false := by
  simp [isMarkerRow, h]

theorem replaceFirstData_at_zero (p rest : List Char) (hp : p ≠ []) :
    replaceFirstData p [] (p ++ rest) = rest := by
  cases p with
  | nil => exact absurd rfl hp
  | cons a as =>
    rw [List.cons_append, replaceFirstData,
      if_pos (by rw [← List.cons_append]; exact isPrefixOf_append_self _ _)]
    rw [← List.cons_append, List.nil_append]
    exact List.drop_left _ _

theorem isPrefixOf_nil_left (tail : List Char) :
    ([] : List Char).isPrefixOf tail = true := by
  cases tail with
  | nil => rfl
  | cons a as => rfl

theorem notPrefix_extend (c : Char) (cs : List Char)
    (h : (['<', '<', '<'] : List Char).isPrefixOf (c :: cs) = false) :
    (['<', '<', '<'] : List Char).isPrefixOf
      ((c :: cs) ++ [' ', '<', '<', '<']) = false := by
  cases cs with
  | nil => simp [List.isPrefixOf]
  | cons c2 cs2 =>
    cases cs2 with
    | nil => simp [List.isPrefixOf]
    | cons c3 cs3 =>
      have hu : ∀ (tail : List Char),
          (['<', '<', '<'] : List Char).isPrefixOf (c :: c2 :: c3 :: tail) =
            ('<' == c && ('<' == c2 && '<' == c3)) := by
        intro tail
        show (('<' == c) && (('<' == c2) && (('<' == c3) &&
          ([] : List Char).isPrefixOf tail))) =
          ('<' == c && ('<' == c2 && '<' == c3))
        rw [isPrefixOf_nil_left tail, Bool.and_true]
      rw [List.cons_append, List.cons_append, List.cons_append, hu]
      rw [hu cs3] at h
      exact h

theorem replaceFirstData_suffix_mark (xs : List Char)
    (h : containsSub (['<', '<', '<'] : List Char) xs = false) :
    replaceFirstData (['<', '<', '<'] : List Char) []
      (xs ++ [' ', '<', '<', '<']) = xs ++ [' '] := by
  induction xs with
  | nil => decide
  | cons c cs ih =>
    simp only [containsSub, Bool.or_eq_false_iff] at h
    obtain ⟨hnp, hrest⟩ := h
    rw [List.cons_append, replaceFirstData,
      if_neg (by
        rw [← List.cons_append]
        intro hcontra
        rw [notPrefix_extend c cs hnp] at hcontra
        exact Bool.noConfusion hcontra)]
    rw [ih hrest]
    rfl

theorem markerTitle_sentinel (title : String) (h1 : jsTrim title = title)
    (h2 : containsSub markEndStr.data title.data = false) :
    markerTitle [sentinelFor title] = title := by
  have hdata : jsTrimData title.data = title.data := by
    have := congrArg String.data h1
    exact this
  unfold markerTitle
  rw [show firstField [sentinelFor title] = sentinelFor title from rfl,
    jsTrim_sentinel]
  have e1 : replaceFirst (sentinelFor title) markStart "" =
      String.mk (title.data ++ [' ', '<', '<', '<']) := by
    unfold replaceFirst
    rw [sentinelFor_data, List.append_assoc,
      replaceFirstData_at_zero markStart.data _ (by decide)]
  rw [e1]
  have e2 : replaceFirst (String.mk (title.data ++ [' ', '<', '<', '<']))
      markEndStr "" = String.mk (title.data ++ [' ']) := by
    unfold replaceFirst
    show String.mk (replaceFirstData (['<', '<', '<'] : List Char) []
      (title.data ++ [' ', '<', '<', '<'])) = _
    rw [replaceFirstData_suffix_mark title.data h2]
  rw [e2]
  unfold jsTrim
  show String.mk (jsTrimData (title.data ++ [' '])) = title
  rw [jsTrimData_append_space title.data hdata]

theorem getLast?_mem_list {α : Type} (l : List α) (a : α)
    (h : l.getLast? = some a) : a ∈ l := by
  induction l with
  | nil => simp at h
  | cons x xs ih =>
    cases xs with
    | nil =>
      simp [List.getLast?] at h
      simp [h]
    | cons y ys =>
      rw [List.getLast?_cons_cons] at h
      exact List.mem_cons_of_mem x (ih h)

/-- Round-trip of the multi-table export of a single well-formed table:
parsing and reassembling the exported text reproduces the table
exactly. -/
theorem export_import_roundtrip (T : TableData) (fb : String)
    (ht1 : jsTrim T.title = T.title)
    (ht2 : containsSub markEndStr.data T.title.data = false)
    (hc1 : ∀ c ∈ T.columns, jsTrim c = c)
    (hc2 : rowHasContent T.columns = true)
    (hc3 : jsStartsWith (jsTrim (firstField T.columns)) markStart = false)
    (hr1 : T.rows ≠ [])
    (hr2 : ∀ r ∈ T.rows, rowHasContent r = true)
    (hr3 : ∀ r ∈ T.rows, jsStartsWith (jsTrim (firstField r)) markStart = false) :
    importCSV fb (exportAllContent [T]) = [T] := by
  have hcols : T.columns ≠ [] := rowHasContent_ne_nil _ hc2
  have hrowsne : ∀ r ∈ T.rows, r ≠ [] :=
    fun r hrm => rowHasContent_ne_nil r (hr2 r hrm)
  have hlast : T.rows.getLast? ≠ some [""] := by
    intro hcontra
    have hmem : ([""] : List String) ∈ T.rows := getLast?_mem_list _ _ hcontra
    have := hr2 _ hmem
    have hfalse : rowHasContent [""] = false := by decide
    rw [hfalse] at this
    exact Bool.noConfusion this
  have hparse := parse_export_single T hcols hr1 hrowsne hlast
  have hm : isMultiTableFile
      ([sentinelFor T.title] :: T.columns :: T.rows) = true := by
    simp [isMultiTableFile, firstField, jsTrim_sentinel, jsStartsWith_sentinel]
  have hmap : T.columns.map jsTrim = T.columns := by
    conv_rhs => rw [← List.map_id T.columns]
    exact List.map_congr_left hc1
  have hfilter : T.rows.filter rowHasContent = T.rows :=
    List.filter_eq_self.mpr hr2
  simp only [importCSV]
  rw [hparse]
  rw [if_neg (by simp)]
  rw [hm]
  simp only [Bool.not_true, Bool.false_eq_true, if_false]
  -- multi-table branch
  unfold assembleMulti
  have hstep : mtStep { tables := [], current := none } [sentinelFor T.title] =
      { tables := [],
        current := some { title := T.title, columns := [], rows := [] } } := by
    rw [mtStep_marker _ _ (isMarkerRow_sentinel T.title)]
    simp [Option.toList, markerTitle_sentinel T.title ht1 ht2]
  rw [List.foldl_cons, hstep]
  rw [foldl_mtStep_body (T.columns :: T.rows) []
    { title := T.title, columns := [], rows := [] }
    (by
      intro r hrm
      rcases List.mem_cons.mp hrm with h | h
      · rw [h]; exact not_marker_of_not_start _ hc3
      · exact not_marker_of_not_start _ (hr3 r h))]
  rw [List.foldl_cons]
  have hbody1 : bodyStep { title := T.title, columns := [], rows := [] }
      T.columns =
      { title := T.title, columns := T.columns.map jsTrim, rows := [] } := by
    simp [bodyStep, hc2]
  rw [hbody1, hmap]
  rw [foldl_bodyStep_cols T.rows
    { title := T.title, columns := T.columns, rows := [] } (by simpa using hcols)]
  simp only [List.nil_append, hfilter]
  simp only [finishMT, Option.toList, List.nil_append]
  have hclean : finalCleanup
      { title := T.title, columns := T.columns, rows := T.rows } =
      { title := T.title, columns := T.columns, rows := T.rows } := by
    unfold finalCleanup
    rw [if_neg (by simpa using hr1)]
  simp only [List.map_cons, List.map_nil, hclean]

/-! ## Lemmas about the table-editing operations -/

theorem filterOutIdxFrom_length {α : Type} (index : Nat) (l : List α) :
    ∀ start, (filterOutIdxFrom index start l).length =
      if start ≤ index ∧ index < start + l.length then l.length - 1
      else l.length := by
  induction l with
  | nil =>
    intro start
    simp only [filterOutIdxFrom, List.length_nil]
    split_ifs with h
    · omega
    · rfl
  | cons x xs ih =>
    intro start
    by_cases hs : start = index
    · rw [filterOutIdxFrom, if_pos hs, ih (start + 1)]
      simp only [List.length_cons]
      split_ifs with h1 h2 h2 <;> omega
    · rw [filterOutIdxFrom, if_neg hs]
      simp only [List.length_cons, ih (start + 1)]
      split_ifs with h1 h2 h2 <;> omega

theorem filterOutIdx_length {α : Type} (index : Nat) (l : List α) :
    (filterOutIdx index l).length =
      if index < l.length then l.length - 1 else l.length := by
  rw [filterOutIdx, filterOutIdxFrom_length index l 0]
  split_ifs with h1 h2 h2 <;> omega

theorem filterOutIdxFrom_mem {α : Type} (index : Nat) (l : List α) :
    ∀ start x, x ∈ filterOutIdxFrom index start l → x ∈ l := by
  induction l with
  | nil =>
    intro start x hx
    simp [filterOutIdxFrom] at hx
  | cons y ys ih =>
    intro start x hx
    rw [filterOutIdxFrom] at hx
    split_ifs at hx with hs
    · exact List.mem_cons_of_mem y (ih (start + 1) x hx)
    · rcases List.mem_cons.mp hx with h | h
      · simp [h]
      · exact List.mem_cons_of_mem y (ih (start + 1) x h)

theorem listModify_length {α : Type} (f : α → α) :
    ∀ (n : Nat) (l : List α), (listModify f n l).length = l.length := by
  intro n l
  induction l generalizing n with
  | nil => cases n <;> rfl
  | cons x xs ih =>
    cases n with
    | zero => simp [listModify]
    | succ m => simp [listModify, ih m]

theorem listModify_forall {α : Type} (P : α → Prop) (f : α → α) :
    ∀ (n : Nat) (l : List α), (∀ x ∈ l, P x) → (∀ x ∈ l, P (f x)) →
      ∀ y ∈ listModify f n l, P y := by
  intro n l
  induction l generalizing n with
  | nil =>
    intro _ _ y hy
    simp [listModify] at hy
  | cons x xs ih =>
    intro hall hallf y hy
    cases n with
    | zero =>
      rcases List.mem_cons.mp hy with h | h
      · rw [h]; exact hallf x (by simp)
      · exact hall y (List.mem_cons_of_mem x h)
    | succ m =>
      rcases List.mem_cons.mp hy with h | h
      · rw [h]; exact hall x (by simp)
      · exact ih m (fun z hz => hall z (List.mem_cons_of_mem x hz))
          (fun z hz => hallf z (List.mem_cons_of_mem x hz)) y h

/-! ## Single-table assembly equivalences -/

theorem assembleSingle_eq_spec (fileName : String)
    (allParsedRows : List (List String)) :
    assembleSingle fileName allParsedRows =
      specAssembleSingle fileName allParsedRows := by
  unfold assembleSingle specAssembleSingle
  cases hf : (allParsedRows.drop 1).filter rowHasContent with
  | nil => simp
  | cons d ds => simp

theorem cleanup_assembleSingle (fileName : String)
    (allParsedRows : List (List String)) :
    finalCleanup (assembleSingle fileName allParsedRows) =
      assembleSingle fileName allParsedRows := by
  unfold assembleSingle finalCleanup
  cases hf : (allParsedRows.drop 1).filter rowHasContent with
  | nil => simp
  | cons d ds => simp

theorem importCSV_single_branch (fileName text : String)
    (h1 : parseCSVToRows text ≠ [])
    (h2 : isMultiTableFile (parseCSVToRows text) = false) :
    importCSV fileName text =
      [assembleSingle fileName (parseCSVToRows text)] := by
  simp only [importCSV]
  rw [if_neg (by simpa [List.length_eq_zero] using h1), h2]
  simp [cleanup_assembleSingle]

theorem importCSV_multi_branch (fileName text : String)
    (h1 : parseCSVToRows text ≠ [])
    (h2 : isMultiTableFile (parseCSVToRows text) = true) :
    importCSV fileName text = specAssembleMulti (parseCSVToRows text) := by
  simp only [importCSV]
  rw [if_neg (by simpa [List.length_eq_zero] using h1), h2]
  simpa using assembleMulti_eq_spec (parseCSVToRows text)

theorem importCSV_no_rows (fileName text : String)
    (h : parseCSVToRows text = []) : importCSV fileName text = [] := by
  simp [importCSV, h]

/-! ## Serializer equivalences -/

theorem escQuotes_eq_flatMap (l : List Char) :
    escQuotes l =
      l.flatMap (fun c => if c = '\"' then ['\"', '\"'] else [c]) := by
  induction l with
  | nil => rfl
  | cons c cs ih =>
    by_cases hc : c = '\"'
    · subst hc
      rw [escQuotes_quote]
      simp [ih]
    · rw [escQuotes_other c cs hc]
      simp [ih, hc]

theorem escapeCSV_eq_spec (s : String) : escapeCSV s = specEscape s := by
  have hd : (escapeCSV s).data = (specEscape s).data := by
    rw [escapeCSV_data]
    show _ = '\"' :: (s.data.flatMap
      (fun c => if c = '\"' then ['\"', '\"'] else [c])) ++ ['\"']
    rw [escQuotes_eq_flatMap]
    rfl
  calc escapeCSV s = String.mk (escapeCSV s).data := (strMk_data _).symm
    _ = String.mk (specEscape s).data := by rw [hd]
    _ = specEscape s := strMk_data _

theorem exportAllContent_cons (t : TableData) (ts : List TableData) :
    exportAllContent (t :: ts) =
      if ts = [] then tableBlock t
      else tableBlock t ++ "\n\n\n" ++ exportAllContent ts := by
  cases ts with
  | nil => simp [exportAllContent, joinSep]
  | cons u us => simp [exportAllContent, joinSep]

theorem tableBlock_structure (t : TableData) :
    tableBlock t = escapeCSV (sentinelFor t.title) ++ "\n" ++
      exportRowStr t.columns ++ "\n" ++
      joinSep "\n" (t.rows.map exportRowStr) := by
  simp [tableBlock, joinSep]

theorem downloadCSVContent_structure (t : TableData) (h : t.rows ≠ []) :
    downloadCSVContent t = exportRowStr t.columns ++ "\n" ++
      joinSep "\n" (t.rows.map exportRowStr) := by
  cases ht : t.rows with
  | nil => exact absurd ht h
  | cons r rs => simp [downloadCSVContent, ht, joinSep]

/-! ## Invariant preservation of the editing operations -/

theorem addRow_inv (t : TableData) (h : rectInv t) : rectInv (addRow t) := by
  obtain ⟨hrne, hcne, hlen⟩ := h
  refine ⟨by simp [addRow], hcne, ?_⟩
  intro r hr
  rcases List.mem_append.mp hr with h1 | h1
  · exact hlen r h1
  · simp at h1
    rw [h1]
    simp [addRow]

theorem addColumn_inv (t : TableData) (h : rectInv t) : rectInv (addColumn t) := by
  obtain ⟨hrne, hcne, hlen⟩ := h
  refine ⟨by simpa [addColumn] using hrne, by simp [addColumn], ?_⟩
  intro r hr
  simp only [addColumn] at hr ⊢
  rcases List.mem_map.mp hr with ⟨r0, hr0, hr0eq⟩
  rw [← hr0eq]
  simp [hlen r0 hr0]

theorem removeRow_inv (t : TableData) (index : Nat) (h : rectInv t) :
    rectInv (removeRow t index) := by
  obtain ⟨hrne, hcne, hlen⟩ := h
  by_cases hl : t.rows.length ≤ 1
  · refine ⟨?_, hcne, ?_⟩
    · simp [removeRow, hl]
    · intro r hr
      simp [removeRow, hl] at hr
      rw [hr]
      simp [removeRow]
  · refine ⟨?_, hcne, ?_⟩
    · simp only [removeRow, if_neg hl]
      intro hcontra
      have := filterOutIdx_length index t.rows
      rw [hcontra] at this
      simp at this
      split_ifs at this <;> omega
    · intro r hr
      simp only [removeRow, if_neg hl] at hr
      exact hlen r (filterOutIdxFrom_mem index t.rows 0 r hr)

theorem removeColumn_inv (t : TableData) (index : Nat) (h : rectInv t) :
    rectInv (removeColumn t index) := by
  obtain ⟨hrne, hcne, hlen⟩ := h
  by_cases hl : t.columns.length ≤ 1
  · rw [removeColumn, if_pos hl]
    exact ⟨hrne, hcne, hlen⟩
  · rw [removeColumn, if_neg hl]
    refine ⟨by simpa using hrne, ?_, ?_⟩
    · intro hcontra
      simp only at hcontra
      have := filterOutIdx_length index t.columns
      rw [hcontra] at this
      simp at this
      split_ifs at this <;> omega
    · intro r hr
      simp only at hr
      rcases List.mem_map.mp hr with ⟨r0, hr0, hr0eq⟩
      rw [← hr0eq]
      show (filterOutIdx index r0).length = (filterOutIdx index t.columns).length
      rw [filterOutIdx_length, filterOutIdx_length, hlen r0 hr0]

theorem updateCell_inv (t : TableData) (rowIndex colIndex : Nat)
    (value : String) (h : rectInv t) :
    rectInv (updateCell t rowIndex colIndex value) := by
  obtain ⟨hrne, hcne, hlen⟩ := h
  refine ⟨?_, hcne, ?_⟩
  · show listModify _ rowIndex t.rows ≠ []
    intro hcontra
    have := listModify_length (listModify (fun _ => value) colIndex)
      rowIndex t.rows
    rw [hcontra] at this
    simp at this
    exact hrne (List.length_eq_zero.mp this.symm)
  · intro r hr
    exact listModify_forall (fun r => r.length = t.columns.length) _
      rowIndex t.rows hlen
      (fun x hx => by
        show (listModify (fun _ => value) colIndex x).length = t.columns.length
        rw [listModify_length]
        exact hlen x hx) r hr

theorem updateHeader_inv (t : TableData) (colIndex : Nat) (value : String)
    (h : rectInv t) : rectInv (updateHeader t colIndex value) := by
  obtain ⟨hrne, hcne, hlen⟩ := h
  refine ⟨hrne, ?_, ?_⟩
  · show listModify _ colIndex t.columns ≠ []
    intro hcontra
    have := listModify_length (fun _ => value) colIndex t.columns
    rw [hcontra] at this
    exact hcne (List.length_eq_zero.mp this.symm)
  · intro r hr
    show r.length = (listModify _ colIndex t.columns).length
    rw [listModify_length]
    exact hlen r hr

theorem removeRow_single (t : TableData) (index : Nat)
    (h : t.rows.length = 1) :
    removeRow t index = { t with rows := [List.replicate t.columns.length ""] } := by
  rw [removeRow, if_pos (by omega)]

theorem removeColumn_single (t : TableData) (index : Nat)
    (h : t.columns.length = 1) : removeColumn t index = t := by
  rw [removeColumn, if_pos (by omega)]

/-! ## Claim theorems -/

/-- Claim C1, counterexample:  The round trip is not exact as claimed: a
column header carrying leading whitespace (here `" h"`) is trimmed on
re-import, so the reassembled table's headers differ from the exported
table's headers — a difference not produced by the empty-row backfill
rule. -/
theorem c1_roundtrip_counterexample :
    (importCSV "fb" (exportAllContent
        [{ title := "A", columns := [" h"], rows := [["1"]] }])).map
      TableData.columns = [["h"]] ∧
    ([["h"]] : List (List String)) ≠ [[" h"]] := by
  constructor
  · decide
  · decide

/-- Claim C1, amended:  For every table whose title is trim-invariant and
free of the substring `<<<`, whose column header row is not entirely
blank, has trim-invariant fields, and does not begin with the marker
text, and whose data rows are non-empty, each non-blank, and none
beginning with the marker text, re-importing the multi-table export of
that table reproduces it exactly (same title, headers and data cells),
so serializing the result reproduces the exported text. -/
theorem c1_roundtrip_amended (T : TableData) (fb : String)
    (ht1 : jsTrim T.title = T.title)
    (ht2 : containsSub markEndStr.data T.title.data = false)
    (hc1 : ∀ c ∈ T.columns, jsTrim c = c)
    (hc2 : rowHasContent T.columns = true)
    (hc3 : jsStartsWith (jsTrim (firstField T.columns)) markStart = false)
    (hr1 : T.rows ≠ [])
    (hr2 : ∀ r ∈ T.rows, rowHasContent r = true)
    (hr3 : ∀ r ∈ T.rows, jsStartsWith (jsTrim (firstField r)) markStart = false) :
    importCSV fb (exportAllContent [T]) = [T] :=
  export_import_roundtrip T fb ht1 ht2 hc1 hc2 hc3 hr1 hr2 hr3

/-- Witness for C1 at a concrete table. -/
theorem c1_roundtrip_witness :
    importCSV "f" (exportAllContent
      [{ title := "A", columns := ["h1", "h2"], rows := [["1", "2"]] }]) =
      [{ title := "A", columns := ["h1", "h2"], rows := [["1", "2"]] }] :=
  c1_roundtrip_amended
    { title := "A", columns := ["h1", "h2"], rows := [["1", "2"]] } "f"
    (by decide) (by decide) (by decide) (by decide) (by decide) (by decide)
    (by decide) (by decide)

/-- Claim C2:  Inside quote mode: a doubled quote is unescaped to one
literal quote without leaving quote mode, a lone quote leaves quote
mode, and any other character (raw newlines and commas included) is
appended literally; parsing `"a,""b\nc"""` followed by a line feed
yields exactly one row with the single field `a,"b\nc"`. -/
theorem c2_quote_mode :
    (∀ (rest cell : List Char) (row : List String),
      parseAux ('\"' :: '\"' :: rest) true cell row =
        parseAux rest true (cell ++ ['\"']) row) ∧
    (∀ (rest cell : List Char) (row : List String), rest.head? ≠ some '\"' →
      parseAux ('\"' :: rest) true cell row = parseAux rest false cell row) ∧
    (∀ (c : Char) (rest cell : List Char) (row : List String), c ≠ '\"' →
      parseAux (c :: rest) true cell row =
        parseAux rest true (cell ++ [c]) row) ∧
    parseCSVToRows "\"a,\"\"b\nc\"\"\"\n" = [["a,\"b\nc\""]] :=
  ⟨parseAux_quote_pair,
   parseAux_quote_close,
   fun c rest cell row h => parseAux_quote_other c rest cell row h,
   by decide⟩

/-- Witness for C2: a lone closing quote at a concrete input. -/
theorem c2_quote_mode_witness :
    parseAux ['\"', 'x'] true [] [] = parseAux ['x'] false [] [] :=
  c2_quote_mode.2.1 ['x'] [] [] (by decide)

/-- Claim C3, counterexample:  The title of a marker row is not obtained
by stripping the prefix and the suffix: JavaScript `replace` removes
the *first* occurrence of `<<<`, so the marker `>>> 表格：<<<A<<<`
yields the title `A<<<`, where stripping prefix and suffix would yield
`<<<A`. -/
theorem c3_multi_assembly_counterexample :
    ((assembleMulti [[">>> 表格：<<<A<<<"], ["h"], ["1"]]).map
        finalCleanup).map TableData.title = ["A<<<"] ∧
    ("A<<<" : String) ≠ "<<<A" := by
  constructor
  · decide
  · decide

/-- Claim C3, amended:  Multi-table assembly is the marker segmentation
described by the spec, except that the title of a marker row is
obtained by deleting the first occurrence of the prefix and then the
first occurrence of `<<<` (JavaScript first-occurrence `replace`), then
trimming — which coincides with stripping prefix and suffix whenever
the enclosed title contains no earlier `<<<`.  Rows before the first
marker are ignored, blank rows are skipped, the first non-blank row of
a segment becomes the trimmed headers, later non-blank rows are
appended verbatim, and a table left with zero data rows receives one
synthetic empty row sized to its column count.  On the spec's example
this yields exactly tables A and B. -/
theorem c3_multi_assembly_amended :
    (∀ rows, (assembleMulti rows).map finalCleanup = specAssembleMulti rows) ∧
    (assembleMulti
        [[">>> 表格：A <<<"], ["h1", "h2"], ["1", "2"], ["", ""],
         [">>> 表格：B <<<"], ["x"], ["9"]]).map finalCleanup =
      [{ title := "A", columns := ["h1", "h2"], rows := [["1", "2"]] },
       { title := "B", columns := ["x"], rows := [["9"]] }] :=
  ⟨assembleMulti_eq_spec, by decide⟩

/-- Claim C4:  Single-table assembly: headers are row 0 trimmed per
field, data rows are exactly the later rows that are not entirely
blank, kept untrimmed and in order, with one synthetic empty row when
none survives, and the title is the fallback title; moreover
the import pipeline uses it on every non-empty parse not detected
as multi-table. -/
theorem c4_single_assembly :
    (∀ (fileName : String) (allParsedRows : List (List String)),
      assembleSingle fileName allParsedRows =
        specAssembleSingle fileName allParsedRows ∧
      finalCleanup (assembleSingle fileName allParsedRows) =
        assembleSingle fileName allParsedRows) ∧
    (∀ (fileName text : String), parseCSVToRows text ≠ [] →
      isMultiTableFile (parseCSVToRows text) = false →
      importCSV fileName text =
        [specAssembleSingle fileName (parseCSVToRows text)]) ∧
    importCSV "f" "\"h1\",\"h2\"" =
      [{ title := "f", columns := ["h1", "h2"], rows := [["", ""]] }] :=
  ⟨fun fileName allParsedRows =>
    ⟨assembleSingle_eq_spec fileName allParsedRows,
     cleanup_assembleSingle fileName allParsedRows⟩,
   fun fileName text h1 h2 => by
    rw [importCSV_single_branch fileName text h1 h2,
      assembleSingle_eq_spec],
   by decide⟩

/-- Witness for C4 at a concrete import. -/
theorem c4_single_assembly_witness :
    importCSV "g" "\"h\"\n\"1\"" =
      [specAssembleSingle "g" (parseCSVToRows "\"h\"\n\"1\"")] :=
  c4_single_assembly.2.1 "g" "\"h\"\n\"1\"" (by decide) (by decide)

/-- Claim C5:  Serializer output: every field is unconditionally wrapped
in double quotes with inner quotes doubled (`escapeCSV` equals the
spec's per-character description); multi-table export emits, per table
in order, the quoted sentinel title row, the header row and the data
rows, blocks separated by two blank lines (`\n\n\n` join); single-table
export emits the header row then the data rows. -/
theorem c5_serializer :
    (∀ s, escapeCSV s = specEscape s) ∧
    (∀ (t : TableData) (ts : List TableData),
      exportAllContent (t :: ts) =
        if ts = [] then tableBlock t
        else tableBlock t ++ "\n\n\n" ++ exportAllContent ts) ∧
    (∀ t : TableData, tableBlock t =
      escapeCSV (sentinelFor t.title) ++ "\n" ++ exportRowStr t.columns ++
        "\n" ++ joinSep "\n" (t.rows.map exportRowStr)) ∧
    (∀ t : TableData, t.rows ≠ [] →
      downloadCSVContent t = exportRowStr t.columns ++ "\n" ++
        joinSep "\n" (t.rows.map exportRowStr)) ∧
    (∀ r : List String, exportRowStr r = joinSep "," (r.map escapeCSV)) ∧
    downloadCSVContent
        { title := "t", columns := ["a\"b"], rows := [["x,y"]] } =
      "\"a\"\"b\"\n\"x,y\"" :=
  ⟨escapeCSV_eq_spec, exportAllContent_cons, tableBlock_structure,
   downloadCSVContent_structure, fun _ => rfl, by decide⟩

/-- Witness for C5's single-table export shape at a concrete table. -/
theorem c5_serializer_witness :
    downloadCSVContent { title := "t", columns := ["h"], rows := [["1"]] } =
      exportRowStr ["h"] ++ "\n" ++
        joinSep "\n" ([["1"]].map exportRowStr) :=
  c5_serializer.2.2.2.1 { title := "t", columns := ["h"], rows := [["1"]] }
    (by decide)

/-- Claim C6:  Mode detection: the assembler treats a parsed row sequence
as a multi-table bundle iff some row's first field, trimmed, starts
with the marker prefix; the import pipeline then takes the multi-table
path, and otherwise the single-table path. -/
theorem c6_mode_detection :
    (∀ rows : List (List String), isMultiTableFile rows = true ↔
      ∃ r ∈ rows, jsStartsWith (jsTrim (firstField r)) markStart = true) ∧
    (∀ (fileName text : String), parseCSVToRows text ≠ [] →
      isMultiTableFile (parseCSVToRows text) = false →
      importCSV fileName text =
        [assembleSingle fileName (parseCSVToRows text)]) ∧
    (∀ (fileName text : String), parseCSVToRows text ≠ [] →
      isMultiTableFile (parseCSVToRows text) = true →
      importCSV fileName text =
        (assembleMulti (parseCSVToRows text)).map finalCleanup) :=
  ⟨fun rows => by simp [isMultiTableFile, List.any_eq_true],
   importCSV_single_branch,
   fun fileName text h1 h2 => by
    simp only [importCSV]
    rw [if_neg (by simpa [List.length_eq_zero] using h1), h2]
    simp⟩

/-- Witness for C6 at a concrete multi-table input. -/
theorem c6_mode_detection_witness :
    importCSV "n" "\">>> 表格：T <<<\"\n\"h\"\n\"1\"" =
      (assembleMulti
        (parseCSVToRows "\">>> 表格：T <<<\"\n\"h\"\n\"1\"")).map
          finalCleanup :=
  c6_mode_detection.2.2 "n" "\">>> 表格：T <<<\"\n\"h\"\n\"1\""
    (by decide) (by decide)

/-- Claim C7, counterexample:  A lone carriage return not followed by a
line feed is *not* appended to the current field: `a\rb` parses to the
single field `ab`, the `\r` is silently dropped
(`else if (char !== '\r')` in the source). -/
theorem c7_outside_quotes_counterexample :
    parseCSVToRows "a\rb" = [["ab"]] ∧
    parseCSVToRows "a\rb" ≠ [["a\rb"]] := by
  constructor
  · decide
  · decide

/-- Claim C7, amended:  Outside quote mode: `"` opens quote mode, `,`
ends the field, `\n` and `\r\n` end the row (the `\r` of the pair is
consumed without emission), a lone `\r` not followed by `\n` is
silently dropped (not appended), and every other character is appended
to the current field. -/
theorem c7_outside_quotes_amended :
    (∀ (rest cell : List Char) (row : List String),
      parseAux ('\"' :: rest) false cell row = parseAux rest true cell row) ∧
    (∀ (rest cell : List Char) (row : List String),
      parseAux (',' :: rest) false cell row =
        parseAux rest false [] (row ++ [String.mk cell])) ∧
    (∀ (rest cell : List Char) (row : List String),
      parseAux ('\n' :: rest) false cell row =
        (row ++ [String.mk cell]) :: parseAux rest false [] []) ∧
    (∀ (rest cell : List Char) (row : List String),
      parseAux ('\r' :: '\n' :: rest) false cell row =
        (row ++ [String.mk cell]) :: parseAux rest false [] []) ∧
    (∀ (rest cell : List Char) (row : List String), rest.head? ≠ some '\n' →
      parseAux ('\r' :: rest) false cell row = parseAux rest false cell row) ∧
    (∀ (c : Char) (rest cell : List Char) (row : List String),
      c ≠ '\"' → c ≠ ',' → c ≠ '\n' → c ≠ '\r' →
      parseAux (c :: rest) false cell row =
        parseAux rest false (cell ++ [c]) row) :=
  ⟨parseAux_open_quote, parseAux_comma, parseAux_newline, parseAux_crlf,
   parseAux_lone_cr,
   fun c rest cell row h1 h2 h3 h4 => parseAux_plain c rest cell row h1 h2 h3 h4⟩

/-- Witness for C7: the lone-carriage-return rule at a concrete input. -/
theorem c7_outside_quotes_witness :
    parseAux ['\r', 'x'] false [] [] = parseAux ['x'] false [] [] :=
  c7_outside_quotes_amended.2.2.2.2.1 ['x'] [] [] (by decide)

/-- Claim C8:  End of input: a non-empty accumulated field or a row with
pushed fields is flushed as one final row; a completely empty trailing
fragment produces no extra row (checked both on the state machine and
on whole inputs with and without trailing newline). -/
theorem c8_end_of_input :
    (∀ (q : Bool) (cell : List Char) (row : List String),
      parseAux [] q cell row =
        if cell ≠ [] ∨ row.length > 0 then [row ++ [String.mk cell]]
        else []) ∧
    parseCSVToRows "a,b" = [["a", "b"]] ∧
    parseCSVToRows "a," = [["a", ""]] ∧
    parseCSVToRows "a,b\n" = [["a", "b"]] ∧
    parseCSVToRows "" = [] :=
  ⟨parseAux_end, by decide, by decide, by decide, by decide⟩

/-- Claim C9:  Totality and empty-input no-op: the parser and assembler
are total Lean functions over all input strings (no exception paths are
modelled because none exist: every character is consumed by the state
machine), the empty input parses to zero rows, and an import whose
parse yields zero rows produces zero tables, so the caller performs no
update. -/
theorem c9_totality_empty :
    parseCSVToRows "" = [] ∧
    (∀ fileName : String, importCSV fileName "" = []) ∧
    (∀ fileName text : String, parseCSVToRows text = [] →
      importCSV fileName text = []) :=
  ⟨by decide, fun fileName => rfl,
   fun fileName text h => importCSV_no_rows fileName text h⟩

/-- Witness for C9 at the empty input. -/
theorem c9_totality_empty_witness : importCSV "n" "" = [] :=
  c9_totality_empty.2.2 "n" "" (by decide)

/-- Claim C10:  Every editing operation preserves the table invariant
(at least one row, at least one column, all rows aligned with the
header count); `removeRow` on a single-row table replaces the row with
one all-empty row, and `removeColumn` on a single-column table leaves
the table unchanged. -/
theorem c10_edit_invariants (t : TableData) (index rowIndex colIndex : Nat)
    (value : String) (h : rectInv t) :
    rectInv (addRow t) ∧ rectInv (addColumn t) ∧
    rectInv (removeRow t index) ∧ rectInv (removeColumn t index) ∧
    rectInv (updateCell t rowIndex colIndex value) ∧
    rectInv (updateHeader t colIndex value) ∧
    (t.rows.length = 1 → removeRow t index =
      { t with rows := [List.replicate t.columns.length ""] }) ∧
    (t.columns.length = 1 → removeColumn t index = t) :=
  ⟨addRow_inv t h, addColumn_inv t h, removeRow_inv t index h,
   removeColumn_inv t index h, updateCell_inv t rowIndex colIndex value h,
   updateHeader_inv t colIndex value h, removeRow_single t index,
   removeColumn_single t index⟩

/-- Witness for C10 at a concrete table. -/
theorem c10_edit_invariants_witness :
    rectInv (addRow { title := "t", columns := ["a"], rows := [["x"]] }) :=
  (c10_edit_invariants { title := "t", columns := ["a"], rows := [["x"]] }
    0 0 0 "v" (by decide)).1
